import Mathlib

/-!
Verification of the ai-camera multi-source acquisition and compositing
pipeline against its natural-language specification.

The Python source is shallowly embedded: pixel buffers (`numpy` 2-D arrays
of pixels) become lists of rows, `np.hstack`/`np.vstack` become partial
(Option-valued) concatenations that fail exactly where numpy raises a
shape-mismatch error, and the stateful capture loop becomes an explicit
step function over a small state record driven by boolean oracles for the
outcomes of I/O operations.
-/

namespace AiCamera

/-- A pixel value (one cell of a numpy array; for the 3-channel frames the
claims only ever inspect zero-ness and layout, so a pixel is abstracted to
a natural number with 0 as the zero-filled value). -/
abbrev Pixel := Nat

/-- A frame is a 2-D buffer: a list of rows of pixels (numpy array of shape
(height, width)). -/
abbrev Frame := List (List Pixel)

/-- Number of rows, `arr.shape[0]`. -/
def fheight (f : Frame) : Nat := f.length

/-- Number of columns, `arr.shape[1]` (read off the first row; meaningful
for rectangular non-empty frames). -/
def fwidth (f : Frame) : Nat := (f.headD []).length

/-- `f` is a rectangular buffer of shape (h, w). -/
def Dims (f : Frame) (h w : Nat) : Prop :=
  f.length = h ∧ ∀ r ∈ f, r.length = w

instance (f : Frame) (h w : Nat) : Decidable (Dims f h w) := by
  unfold Dims; infer_instance

/-- `np.zeros((h, w, 3), dtype=np.uint8)`: an h×w buffer of zero pixels. -/
def zeroFrame (h w : Nat) : Frame :=
  List.replicate h (List.replicate w 0)

/-- `np.hstack([a, b])` for two 2-D arrays: rowwise concatenation;
numpy raises a ValueError when the row counts differ, modelled as `none`. -/
def hstack2 (a b : Frame) : Option Frame :=
  if a.length = b.length then some (List.zipWith (· ++ ·) a b) else none

/-- `np.hstack(fs)` for a list of 2-D arrays (numpy raises on an empty
list, modelled as `none`). -/
def hstackList : List Frame → Option Frame
  | [] => none
  | f :: fs => fs.foldlM hstack2 f

/-- `np.vstack([a, b])`: row concatenation; numpy raises a ValueError when
the column counts differ, modelled as `none`. -/
def vstack2 (a b : Frame) : Option Frame :=
  if fwidth a = fwidth b then some (a ++ b) else none

/-- `DisplayManager.combine_frames` (src/display_manager.py:212-270),
embedded faithfully: N=1 passthrough; N=2 horizontal concatenation;
N≥3 a two-row layout with zero padding of a narrower second row — a
centred split when the second row holds exactly one frame, otherwise the
whole shortfall appended on the right.  `none` models the paths on which
the Python call returns None (empty input) or numpy raises. -/
def combine_frames (frames : List Frame) : Option Frame :=
  if frames.isEmpty then none
  else
    let num_cameras := frames.length
    let frame_height := fheight (frames.headD [])
    if num_cameras = 1 then some (frames.headD [])
    else if num_cameras = 2 then hstackList frames
    else do
      let cameras_first_row := 2
      let cameras_second_row := num_cameras - cameras_first_row
      let first_row ← hstackList (frames.take cameras_first_row)
      let second_row ←
        if cameras_second_row = 1 then do
          let second_row := frames.getD cameras_first_row []
          let padding_width : Int :=
            (fwidth first_row : Int) - (fwidth second_row : Int)
          if padding_width > 0 then
            let left_padding := padding_width.toNat / 2
            let right_padding := padding_width.toNat - left_padding
            let left_pad := zeroFrame frame_height left_padding
            let right_pad := zeroFrame frame_height right_padding
            hstackList [left_pad, second_row, right_pad]
          else pure second_row
        else do
          let second_row ← hstackList (frames.drop cameras_first_row)
          let width_diff : Int :=
            (fwidth first_row : Int) - (fwidth second_row : Int)
          if width_diff > 0 then
            let padding := zeroFrame frame_height width_diff.toNat
            hstackList [second_row, padding]
          else pure second_row
      vstack2 first_row second_row

/-! ### Shape lemmas for the stacking primitives -/

theorem dims_zeroFrame (h w : Nat) : Dims (zeroFrame h w) h w := by
  refine ⟨List.length_replicate .., fun r hr => ?_⟩
  rw [List.eq_of_mem_replicate hr]
  exact List.length_replicate ..

theorem zipWith_append_rows {wa wb : Nat} :
    ∀ (a b : Frame), (∀ r ∈ a, r.length = wa) → (∀ r ∈ b, r.length = wb) →
      ∀ r ∈ List.zipWith (· ++ ·) a b, r.length = wa + wb := by
  intro a
  induction a with
  | nil => intro b _ _ r hr; simp at hr
  | cons x xs ih =>
    intro b ha hb r hr
    cases b with
    | nil => simp at hr
    | cons y ys =>
      simp only [List.zipWith_cons_cons, List.mem_cons] at hr
      rcases hr with rfl | hr
      · rw [List.length_append, ha x (by simp), hb y (by simp)]
      · exact ih ys (fun r h => ha r (by simp [h])) (fun r h => hb r (by simp [h])) r hr

theorem hstack2_dims {a b : Frame} {h wa wb : Nat}
    (ha : Dims a h wa) (hb : Dims b h wb) :
    ∃ c, hstack2 a b = some c ∧ Dims c h (wa + wb) := by
  refine ⟨List.zipWith (· ++ ·) a b, ?_, ?_, ?_⟩
  · unfold hstack2
    rw [if_pos (ha.1.trans hb.1.symm)]
  · rw [List.length_zipWith, ha.1, hb.1, Nat.min_self]
  · exact zipWith_append_rows a b ha.2 hb.2

theorem hstackList_dims_aux {h w : Nat} :
    ∀ (fs : List Frame) (f : Frame) (wf : Nat), Dims f h wf →
      (∀ g ∈ fs, Dims g h w) →
      ∃ c, hstackList (f :: fs) = some c ∧ Dims c h (wf + fs.length * w) := by
  intro fs
  induction fs with
  | nil =>
    intro f wf hf _
    exact ⟨f, rfl, by simpa using hf⟩
  | cons g gs ih =>
    intro f wf hf hgs
    obtain ⟨c, hc, hcd⟩ := hstack2_dims hf (hgs g (by simp))
    obtain ⟨d, hd, hdd⟩ := ih c (wf + w) hcd (fun x hx => hgs x (by simp [hx]))
    refine ⟨d, ?_, ?_⟩
    · show (g :: gs).foldlM hstack2 f = some d
      simpa [List.foldlM_cons, hc] using hd
    · have : wf + w + gs.length * w = wf + (g :: gs).length * w := by
        simp [Nat.succ_mul]; ring
      rwa [this] at hdd

theorem hstackList_dims {h w : Nat} (fs : List Frame) (f : Frame)
    (hf : Dims f h w) (hgs : ∀ g ∈ fs, Dims g h w) :
    ∃ c, hstackList (f :: fs) = some c ∧ Dims c h ((fs.length + 1) * w) := by
  obtain ⟨c, hc, hcd⟩ := hstackList_dims_aux fs f w hf hgs
  have he : w + fs.length * w = (fs.length + 1) * w := by ring
  exact ⟨c, hc, he ▸ hcd⟩

theorem fwidth_of_dims {f : Frame} {h w : Nat} (hf : Dims f h w) (hh : 0 < h) :
    fwidth f = w := by
  obtain ⟨hl, hr⟩ := hf
  cases f with
  | nil =>
    exfalso
    simp only [List.length_nil] at hl
    omega
  | cons r rs => exact hr r (by simp)

theorem hstack2_eq {a b : Frame} (h : a.length = b.length) :
    hstack2 a b = some (List.zipWith (· ++ ·) a b) := by
  unfold hstack2
  rw [if_pos h]

theorem dims_zipWith_append {a b : Frame} {h wa wb : Nat}
    (ha : Dims a h wa) (hb : Dims b h wb) :
    Dims (List.zipWith (· ++ ·) a b) h (wa + wb) := by
  refine ⟨?_, zipWith_append_rows a b ha.2 hb.2⟩
  rw [List.length_zipWith, ha.1, hb.1, Nat.min_self]

theorem zipWith_append_replicate_left (l : Nat) :
    ∀ (ys : Frame) (n : Nat), ys.length = n →
      List.zipWith (· ++ ·) (List.replicate n (List.replicate l (0 : Pixel))) ys =
        ys.map (fun r => List.replicate l (0 : Pixel) ++ r) := by
  intro ys
  induction ys with
  | nil => intro n _; simp
  | cons y ys ih =>
    intro n hn
    cases n with
    | zero => simp at hn
    | succ m =>
      simp only [List.replicate_succ, List.zipWith_cons_cons, List.map_cons]
      rw [ih m (by simpa using hn)]

theorem zipWith_append_replicate_right (l : Nat) :
    ∀ (ys : Frame) (n : Nat), ys.length = n →
      List.zipWith (· ++ ·) ys (List.replicate n (List.replicate l (0 : Pixel))) =
        ys.map (fun r => r ++ List.replicate l (0 : Pixel)) := by
  intro ys
  induction ys with
  | nil => intro n _; simp
  | cons y ys ih =>
    intro n hn
    cases n with
    | zero => simp at hn
    | succ m =>
      simp only [List.replicate_succ, List.zipWith_cons_cons, List.map_cons]
      rw [ih m (by simpa using hn)]

theorem vstack2_dims {a b : Frame} {ha hb w : Nat}
    (hda : Dims a ha w) (hdb : Dims b hb w) (h0a : 0 < ha) (h0b : 0 < hb) :
    ∃ c, vstack2 a b = some c ∧ Dims c (ha + hb) w := by
  refine ⟨a ++ b, ?_, ?_, ?_⟩
  · unfold vstack2
    rw [if_pos ((fwidth_of_dims hda h0a).trans (fwidth_of_dims hdb h0b).symm)]
  · rw [List.length_append, hda.1, hdb.1]
  · intro r hr
    rcases List.mem_append.mp hr with h | h
    · exact hda.2 r h
    · exact hdb.2 r h


/-- One row of the padded second row for a single-frame second row: the
source row with `l` zero columns on the left and `r` on the right. -/
def padRow (l r : Nat) (row : List Pixel) : List Pixel :=
  List.replicate l 0 ++ row ++ List.replicate r 0

theorem vstack2_eq {a b : Frame} (h : fwidth a = fwidth b) :
    vstack2 a b = some (a ++ b) := by
  unfold vstack2
  rw [if_pos h]

theorem hstackList_pair (a b : Frame) : hstackList [a, b] = hstack2 a b := by
  simp [hstackList, List.foldlM]

theorem hstackList_triple (a b c : Frame) :
    hstackList [a, b, c] = (hstack2 a b).bind fun x => hstack2 x c := by
  cases h : hstack2 a b <;> simp [hstackList, List.foldlM, h]

theorem combine_frames_one (a : Frame) : combine_frames [a] = some a := rfl

theorem combine_frames_two {a b : Frame} (h : a.length = b.length) :
    combine_frames [a, b] = some (List.zipWith (· ++ ·) a b) := by
  unfold combine_frames
  simp only [List.isEmpty_cons, List.length_cons, List.length_nil]
  norm_num [hstackList, List.foldlM, hstack2_eq h]

theorem dims_map_padRow {c : Frame} {H Wc : Nat} (hc : Dims c H Wc) (l r : Nat) :
    Dims (c.map (padRow l r)) H (l + Wc + r) := by
  refine ⟨by simpa using hc.1, fun row hrow => ?_⟩
  obtain ⟨s, hs, rfl⟩ := List.mem_map.mp hrow
  simp [padRow, hc.2 s hs]
  omega

theorem combine_frames_three {a b c : Frame} {H Wa Wb Wc : Nat}
    (hH : 0 < H) (ha : Dims a H Wa) (hb : Dims b H Wb) (hc : Dims c H Wc)
    (hlt : Wc < Wa + Wb) :
    combine_frames [a, b, c] =
      some (List.zipWith (· ++ ·) a b ++
        c.map (padRow ((Wa + Wb - Wc) / 2) ((Wa + Wb - Wc) - (Wa + Wb - Wc) / 2))) := by
  have hF : Dims (List.zipWith (· ++ ·) a b) H (Wa + Wb) := dims_zipWith_append ha hb
  have hWF : fwidth (List.zipWith (· ++ ·) a b) = Wa + Wb := fwidth_of_dims hF hH
  have hWc : fwidth c = Wc := fwidth_of_dims hc hH
  have hHa : fheight a = H := ha.1
  unfold combine_frames
  simp only [List.isEmpty_cons, List.length_cons, List.length_nil, List.headD_cons]
  norm_num [List.take, List.getD]
  rw [hstackList_pair, hstack2_eq (ha.1.trans hb.1.symm)]
  simp only [Option.some_bind, hWF, hWc, hHa]
  rw [if_pos hlt]
  rw [hstackList_triple]
  have hz1 : hstack2 (zeroFrame H ((Wa + Wb - Wc) / 2)) c =
      some (c.map (fun row => List.replicate ((Wa + Wb - Wc) / 2) (0 : Pixel) ++ row)) := by
    rw [hstack2_eq (by simp [zeroFrame, hc.1])]
    rw [zeroFrame, zipWith_append_replicate_left _ c H hc.1]
  rw [hz1]
  simp only [Option.some_bind]
  have hz2 : hstack2 (c.map (fun row => List.replicate ((Wa + Wb - Wc) / 2) (0 : Pixel) ++ row))
      (zeroFrame H ((Wa + Wb - Wc) - (Wa + Wb - Wc) / 2)) =
      some (c.map (padRow ((Wa + Wb - Wc) / 2) ((Wa + Wb - Wc) - (Wa + Wb - Wc) / 2))) := by
    rw [hstack2_eq (by simp [zeroFrame, hc.1])]
    rw [zeroFrame, zipWith_append_replicate_right _ _ H (by simp [hc.1])]
    simp [List.map_map, padRow, Function.comp_def, List.append_assoc]
  rw [hz2]
  simp only [Option.some_bind]
  have hsd : Dims (c.map (padRow ((Wa + Wb - Wc) / 2) ((Wa + Wb - Wc) - (Wa + Wb - Wc) / 2)))
      H (Wa + Wb) := by
    have := dims_map_padRow hc ((Wa + Wb - Wc) / 2) ((Wa + Wb - Wc) - (Wa + Wb - Wc) / 2)
    have he : (Wa + Wb - Wc) / 2 + Wc + ((Wa + Wb - Wc) - (Wa + Wb - Wc) / 2) = Wa + Wb := by
      omega
    rwa [he] at this
  rw [vstack2_eq (hWF.trans (fwidth_of_dims hsd hH).symm)]

theorem combine_frames_four_pad {a b c d : Frame} {H Wa Wb Wc Wd : Nat}
    (hH : 0 < H) (ha : Dims a H Wa) (hb : Dims b H Wb) (hc : Dims c H Wc)
    (hd : Dims d H Wd) (hlt : Wc + Wd < Wa + Wb) :
    combine_frames [a, b, c, d] =
      some (List.zipWith (· ++ ·) a b ++
        (List.zipWith (· ++ ·) c d).map
          (fun row => row ++ List.replicate ((Wa + Wb) - (Wc + Wd)) (0 : Pixel))) := by
  have hF : Dims (List.zipWith (· ++ ·) a b) H (Wa + Wb) := dims_zipWith_append ha hb
  have hS : Dims (List.zipWith (· ++ ·) c d) H (Wc + Wd) := dims_zipWith_append hc hd
  have hWF : fwidth (List.zipWith (· ++ ·) a b) = Wa + Wb := fwidth_of_dims hF hH
  have hWS : fwidth (List.zipWith (· ++ ·) c d) = Wc + Wd := fwidth_of_dims hS hH
  have hHa : fheight a = H := ha.1
  unfold combine_frames
  simp only [List.isEmpty_cons, List.length_cons, List.length_nil, List.headD_cons]
  norm_num [List.take, List.drop]
  rw [hstackList_pair, hstack2_eq (ha.1.trans hb.1.symm),
    hstackList_pair, hstack2_eq (hc.1.trans hd.1.symm)]
  simp only [Option.some_bind, hWF, hWS, hHa]
  rw [if_pos hlt]
  have hz : hstack2 (List.zipWith (· ++ ·) c d) (zeroFrame H ((Wa + Wb) - (Wc + Wd))) =
      some ((List.zipWith (· ++ ·) c d).map
        (fun row => row ++ List.replicate ((Wa + Wb) - (Wc + Wd)) (0 : Pixel))) := by
    rw [hstack2_eq (by simp [zeroFrame, hS.1])]
    rw [zeroFrame, zipWith_append_replicate_right _ _ H hS.1]
  rw [hstackList_pair, hz]
  simp only [Option.some_bind]
  have hpd : Dims ((List.zipWith (· ++ ·) c d).map
      (fun row => row ++ List.replicate ((Wa + Wb) - (Wc + Wd)) (0 : Pixel))) H (Wa + Wb) := by
    refine ⟨by simpa using hS.1, fun row hrow => ?_⟩
    obtain ⟨s, hs, rfl⟩ := List.mem_map.mp hrow
    simp [hS.2 s hs]
    omega
  rw [vstack2_eq (hWF.trans (fwidth_of_dims hpd hH).symm)]

theorem combine_frames_four_exact {a b c d : Frame} {H Wa Wb Wc Wd : Nat}
    (hH : 0 < H) (ha : Dims a H Wa) (hb : Dims b H Wb) (hc : Dims c H Wc)
    (hd : Dims d H Wd) (heq : Wc + Wd = Wa + Wb) :
    combine_frames [a, b, c, d] =
      some (List.zipWith (· ++ ·) a b ++ List.zipWith (· ++ ·) c d) := by
  have hF : Dims (List.zipWith (· ++ ·) a b) H (Wa + Wb) := dims_zipWith_append ha hb
  have hS : Dims (List.zipWith (· ++ ·) c d) H (Wc + Wd) := dims_zipWith_append hc hd
  have hWF : fwidth (List.zipWith (· ++ ·) a b) = Wa + Wb := fwidth_of_dims hF hH
  have hWS : fwidth (List.zipWith (· ++ ·) c d) = Wc + Wd := fwidth_of_dims hS hH
  unfold combine_frames
  simp only [List.isEmpty_cons, List.length_cons, List.length_nil, List.headD_cons]
  norm_num [List.take, List.drop]
  rw [hstackList_pair, hstack2_eq (ha.1.trans hb.1.symm),
    hstackList_pair, hstack2_eq (hc.1.trans hd.1.symm)]
  simp only [Option.some_bind, hWF, hWS]
  rw [if_neg (by omega)]
  rw [vstack2_eq (by rw [hWF, hWS, heq])]

theorem combine_frames_ge_five {H W : Nat} (a b r1 r2 r3 : Frame) (rest : List Frame)
    (hH : 0 < H) (hW : 0 < W)
    (hdims : ∀ f ∈ a :: b :: r1 :: r2 :: r3 :: rest, Dims f H W) :
    combine_frames (a :: b :: r1 :: r2 :: r3 :: rest) = none := by
  have ha := hdims a (by simp)
  have hb := hdims b (by simp)
  have hF : Dims (List.zipWith (· ++ ·) a b) H (W + W) := dims_zipWith_append ha hb
  have hWF : fwidth (List.zipWith (· ++ ·) a b) = W + W := fwidth_of_dims hF hH
  obtain ⟨S, hSeq, hSd⟩ := hstackList_dims (r2 :: r3 :: rest) r1
    (hdims r1 (by simp)) (fun g hg => hdims g (by simp only [List.mem_cons] at hg ⊢; tauto))
  have hWS : fwidth S = ((r2 :: r3 :: rest).length + 1) * W := fwidth_of_dims hSd hH
  unfold combine_frames
  simp only [List.isEmpty_cons, List.length_cons, List.length_nil, List.headD_cons,
    Bool.false_eq_true, if_false]
  rw [if_neg (by omega), if_neg (by omega)]
  simp only [List.take_succ_cons, List.take_zero, List.drop_succ_cons, List.drop_zero]
  rw [hstackList_pair, hstack2_eq (ha.1.trans hb.1.symm)]
  simp only [Option.bind_eq_bind, Option.some_bind, hWF]
  rw [if_neg (by omega), hSeq]
  simp only [Option.some_bind]
  set n := (r2 :: r3 :: rest).length + 1 with hn
  have h3 : 3 * W ≤ n * W :=
    Nat.mul_le_mul_right W (by rw [hn]; simp only [List.length_cons]; omega)
  rw [if_neg (by rw [hWS]; omega)]
  simp only [Option.pure_def, Option.some_bind]
  unfold vstack2
  rw [if_neg (by rw [hWF, hWS]; omega)]

/-! ### SourceWorker: the capture loop state machine
(src/camera_thread.py:75-107) and the connection helper with backoff
(src/utils/connect_camera.py:4-25, src/main.py:38-59). -/

/-- `CAMERA_SETTINGS["max_reconnect_attempts"]` (src/config.py). -/
def max_reconnect_attempts : Nat := 5

/-- `CAMERA_SETTINGS["reconnect_delay"]` in milliseconds (1 second,
src/config.py). -/
def reconnect_delay_ms : Nat := 1000

/-- `CAMERA_SETTINGS["extended_retry_delay"]` in milliseconds (5 seconds,
src/config.py). -/
def extended_retry_delay_ms : Nat := 5000

/-- The mutable state of one `CameraThread` that the capture loop reads and
writes: whether `self.cap` currently holds an opened capture, and
`self.reconnect_attempts`. -/
structure CamState where
  connected : Bool
  attempts : Nat
  deriving Repr, DecidableEq

/-- Observable actions of a single iteration of `_capture_loop`
(src/camera_thread.py:80-107).  Sleep events carry their duration in
milliseconds as written in the source. -/
inductive CamEvent where
  /-- `open_stream()` succeeded inside the reconnect branch. -/
  | reconnected : CamEvent
  /-- `time.sleep(CAMERA_SETTINGS["reconnect_delay"])` after a failed
  reconnection attempt. -/
  | retrySleep (ms : Nat) : CamEvent
  /-- `time.sleep(CAMERA_SETTINGS["extended_retry_delay"])` after the
  attempt budget is exhausted. -/
  | backoffSleep (ms : Nat) : CamEvent
  /-- a frame was read, resized and published under the lock. -/
  | published : CamEvent
  /-- `time.sleep(0.1)` after `cap.read()` failed. -/
  | readFailSleep (ms : Nat) : CamEvent
  deriving Repr, DecidableEq

/-- One iteration of the `while self.running` body of
`CameraThread._capture_loop`.  `capAlive` is the outcome of the
`self.cap and self.cap.isOpened()` check for a previously opened capture,
`openOk` the outcome of `open_stream()`, and `readOk` the outcome of
`self.cap.read()` — the three I/O oracles of the loop.  The returned event
list holds the observable actions of the iteration in order. -/
def captureLoopStep (s : CamState) (capAlive openOk readOk : Bool) :
    CamState × List CamEvent :=
  if !s.connected || !capAlive then
    if s.attempts < max_reconnect_attempts then
      if openOk then
        -- `open_stream()` succeeded: attempts reset, then the same
        -- iteration falls through to `self.cap.read()`.
        if readOk then (⟨true, 0⟩, [.reconnected, .published])
        else (⟨true, 0⟩, [.reconnected, .readFailSleep 100])
      else
        (⟨false, s.attempts + 1⟩, [.retrySleep reconnect_delay_ms])
    else
      (⟨false, 0⟩, [.backoffSleep extended_retry_delay_ms])
  else
    if readOk then (⟨true, 0⟩, [.published])
    else (s, [.readFailSleep 100])

/-- States of a camera thread reachable from the state in which
`CameraThread.start` launched the loop (stream opened, zero attempts). -/
inductive Reach : CamState → Prop where
  | init : Reach ⟨true, 0⟩
  | step (s : CamState) (capAlive openOk readOk : Bool) :
      Reach s → Reach (captureLoopStep s capAlive openOk readOk).1

/-- `connect_camera`'s retry delay, in seconds, before attempt number
`attempt + 1` (src/utils/connect_camera.py:21 and src/main.py:55):
`min(base_delay * (2 ** (attempt - 1)), max_delay)` with `base_delay = 1`
and `max_delay = 30`, for one-based `attempt`. -/
def connectCameraDelay (attempt : Nat) : Nat :=
  min (1 * 2 ^ (attempt - 1)) 30

/-- Reachable capture-loop states keep `attempts ≤ 5`, and a connected
state always has `attempts = 0` (the loop zeroes the counter on every
successful open and read). -/
theorem reach_invariant {s : CamState} (h : Reach s) :
    s.attempts ≤ max_reconnect_attempts ∧ (s.connected = true → s.attempts = 0) := by
  induction h with
  | init => exact ⟨by simp [max_reconnect_attempts], fun _ => rfl⟩
  | step s capAlive openOk readOk _ ih =>
    unfold captureLoopStep
    repeat' split
    all_goals simp_all [max_reconnect_attempts]
    all_goals omega

/-! ### FrameStore: the per-thread latest-frame slot
(src/camera_thread.py:96-117).  Python buffer objects live on a heap;
`frame.copy()` allocates a fresh object.  The heap is modelled as a list of
buffers indexed by allocation order, so an address is an index and
allocation appends. -/

/-- A pixel buffer object (contents of one numpy frame, flattened). -/
abbrev Buffer := List Nat

/-- One camera thread's shared slot together with the object heap:
`self.frame` is a reference (`addr`) into the heap or `None`, and
`self.timestamp` is the time of the last publish (0 until then). -/
structure Slot where
  heap : List Buffer
  addr : Option Nat
  ts : Nat

/-- The slot before any publish: `self.frame = None`, `self.timestamp = 0`. -/
def Slot.initial : Slot := ⟨[], none, 0⟩

/-- The writer side of `_capture_loop` under `self.lock`
(src/camera_thread.py:101-104): `self.frame = frame.copy()` allocates a
fresh copy of the producer's buffer and repoints the slot at it;
`self.timestamp = time.time()` records the capture time `t`. -/
def publish (s : Slot) (buf : Buffer) (t : Nat) : Slot :=
  { heap := s.heap ++ [buf], addr := some s.heap.length, ts := t }

/-- `get_latest_frame` (src/camera_thread.py:109-117): under the lock it
returns `(self.frame.copy(), self.timestamp)`; the copy is a freshly
allocated object holding the slot buffer's current contents.  Returns the
grown heap, the reader's address (`none` when `self.frame is None`) and
the timestamp. -/
def get_latest_frame (s : Slot) : Slot × Option Nat × Nat :=
  match s.addr with
  | none => (s, none, s.ts)
  | some a =>
    ({ s with heap := s.heap ++ [s.heap.getD a []] }, some s.heap.length, s.ts)

/-- The contents a heap address refers to. -/
def heapVal (s : Slot) (a : Nat) : Buffer := s.heap.getD a []

/-- Run a sequence of publishes in order. -/
def publishAll (s : Slot) (ps : List (Buffer × Nat)) : Slot :=
  ps.foldl (fun s p => publish s p.1 p.2) s

/-! ### Frame collection and the placeholder
(src/display_manager.py:94-137). -/

/-- `cv2.putText` on the placeholder draws the "Camera N Disconnected"
label in place at `(frame_width//2 - 100, frame_height//2)` — outside any
region a claim inspects — and preserves the buffer's shape; the pixel
contents of the label are not modelled, so the placeholder is embedded as
the `np.zeros((frame_height, frame_width, 3))` buffer it is drawn onto
(`create_placeholder_frame`, src/display_manager.py:94-111). -/
def create_placeholder_frame (frame_height frame_width : Nat)
    (_camera_id : Nat) : Frame :=
  zeroFrame frame_height frame_width

/-- What `collect_frames` observes of one `CameraThread`: its `camera_id`
and the result of `get_latest_frame()` — `none` when the thread has never
published. -/
structure CamView where
  camera_id : Nat
  latest : Option Frame
  latest_ts : Nat

/-- `DisplayManager.collect_frames` (src/display_manager.py:113-137):
walks the camera threads in configuration order; a present frame is
appended with its timestamp, an absent one is replaced by a placeholder
with timestamp 0. -/
def collect_frames (frame_height frame_width : Nat) :
    List CamView → List Frame × List Nat
  | [] => ([], [])
  | cam :: rest =>
    let (frames, timestamps) := collect_frames frame_height frame_width rest
    match cam.latest with
    | some f => (f :: frames, cam.latest_ts :: timestamps)
    | none =>
      (create_placeholder_frame frame_height frame_width cam.camera_id :: frames,
        0 :: timestamps)

/-! ### AnnotationBridge (src/display_manager.py:139-191) and the drawing
step (src/ai_detector.py:124-162). -/

/-- One detection: `(x1, y1, x2, y2, confidence)`
(src/ai_detector.py:78-122). -/
abbrev Det := Nat × Nat × Nat × Nat × Rat

/-- The `AI_DETECTION_SETTINGS` fields that `apply_ai_detection` consults
(src/config.py). -/
structure AiSettings where
  enabled : Bool
  detection_on_all_cameras : Bool
  target_cameras : List Nat
  draw_bounding_boxes : Bool
  max_detections_per_frame : Nat

/-- The committed `AI_DETECTION_SETTINGS` values (src/config.py). -/
def aiDetectionSettings : AiSettings :=
  { enabled := true
    detection_on_all_cameras := true
    target_cameras := [0, 1, 2]
    draw_bounding_boxes := true
    max_detections_per_frame := 10 }

/-- `np.sum(frame[0:50, 0:50])` — the corner-sampling placeholder
heuristic of src/display_manager.py:163. -/
def cornerSum (f : Frame) : Nat :=
  ((f.take 50).map (fun r => (r.take 50).sum)).sum

/-- The body of `apply_ai_detection`'s `for i, frame in enumerate(frames)`
loop (src/display_manager.py:155-189).  `detect` is the external
detection capability (`HumanDetector.detect_humans`); a raised exception
is `Except.error`.  `draw` is `HumanDetector.draw_detections`.  `i` is the
running loop index and `camera_ids` the `camera_id` fields of
`camera_threads` (`camera_threads[i].camera_id if i < len(camera_threads)
else i`). -/
def apply_ai_detection_go (S : AiSettings)
    (detect : Frame → Except Unit (List Det))
    (draw : Frame → List Det → Nat → Frame)
    (camera_ids : List Nat) (i : Nat) : List Frame → List Frame
  | [] => []
  | frame :: rest =>
    let camera_id := camera_ids.getD i i
    let processed :=
      if S.detection_on_all_cameras || S.target_cameras.contains camera_id then
        if cornerSum frame = 0 then frame
        else
          match detect frame with
          | .error _ => frame
          | .ok detections0 =>
            let detections :=
              if detections0.length > S.max_detections_per_frame then
                detections0.take S.max_detections_per_frame
              else detections0
            if S.draw_bounding_boxes && !detections.isEmpty then
              draw frame detections camera_id
            else frame
      else frame
    processed :: apply_ai_detection_go S detect draw camera_ids (i + 1) rest

/-- `DisplayManager.apply_ai_detection` (src/display_manager.py:139-191).
`detector_loaded` models `self.human_detector` being non-None. -/
def apply_ai_detection (S : AiSettings) (detector_loaded : Bool)
    (detect : Frame → Except Unit (List Det))
    (draw : Frame → List Det → Nat → Frame)
    (camera_ids : List Nat) (frames : List Frame) : List Frame :=
  if !detector_loaded || !S.enabled then frames
  else apply_ai_detection_go S detect draw camera_ids 0 frames

/-- `HumanDetector.draw_detections` (src/ai_detector.py:124-162) over the
object heap: `annotated_frame = frame.copy()` allocates a fresh buffer,
every `cv2.rectangle`/`cv2.putText` mutates only that fresh buffer, and
the fresh address is returned.  The cv2 raster primitives are external
collaborators, passed in as `rectOp` (bounding box plus label background),
`labelOp` (per-detection label text) and `summaryOp` (per-frame summary
line). -/
def draw_detections (rectOp : Frame → Det → Frame)
    (labelOp : Frame → Nat → Det → Frame)
    (summaryOp : Frame → Nat → Nat → Frame)
    (heap : List Frame) (a : Nat) (detections : List Det)
    (camera_id : Nat) : List Frame × Nat :=
  let annotated := heap.getD a []
  let annotated :=
    detections.enum.foldl (fun acc p => labelOp (rectOp acc p.2) p.1 p.2) annotated
  let annotated := summaryOp annotated camera_id detections.length
  (heap ++ [annotated], heap.length)

/-! ### AlertDispatcher: cooldown logic of
`DisplayManager._play_alert_sound` (src/display_manager.py:67-92) and the
per-camera rate limiter of `process_camera` (src/main.py:95-99). -/

/-- One call of `_play_alert_sound` reduced to its cooldown core:
given `self.last_sound_time` and the current time, either suppress
(`current_time - self.last_sound_time < cooldown`) leaving the state
unchanged, or dispatch and set `self.last_sound_time = current_time`.
Returns (dispatched?, new last_sound_time). -/
def play_alert_step (cooldown last now : Nat) : Bool × Nat :=
  if now - last < cooldown then (false, last) else (true, now)

/-- The times at which `_play_alert_sound` dispatches an alert, over a
sequence of positive-detection times, starting from
`self.last_sound_time = last` (initially 0). -/
def play_alert_run (cooldown last : Nat) : List Nat → List Nat
  | [] => []
  | t :: ts =>
    if t - last < cooldown then play_alert_run cooldown last ts
    else t :: play_alert_run cooldown t ts

/-- The times at which `process_camera` (src/main.py:95-99) dispatches
`processDetections`, over a sequence of positive-detection times, starting
from `last_sent = last` (initially 0): it dispatches only when
`now - last_sent > 5` and then sets `last_sent = now`. -/
def process_camera_alert_run (last : Nat) : List Nat → List Nat
  | [] => []
  | t :: ts =>
    if t - last > 5 then t :: process_camera_alert_run t ts
    else process_camera_alert_run last ts

/-! ### Governor (src/display_manager.py:290-302). -/

/-- `APP_CONSTANTS["min_delay"]` (src/config.py): the floor, in
milliseconds, for the `cv2.waitKey` delay. -/
def min_delay : Int := 1

/-- `self.target_frame_time = 1.0 / DISPLAY_SETTINGS["target_fps"]`
(src/display_manager.py:24, `target_fps = 25`). -/
def target_frame_time : Rat := 1 / 25

/-- Python's `int()` on a real number: truncation toward zero. -/
def pythonInt (q : Rat) : Int := if q < 0 then ⌈q⌉ else ⌊q⌋

/-- `DisplayManager.calculate_delay` (src/display_manager.py:290-302):
`max(APP_CONSTANTS["min_delay"], int((self.target_frame_time - elapsed) *
1000))`, with `elapsed` the measured cycle time in seconds. -/
def calculate_delay (elapsed : Rat) : Int :=
  max min_delay (pythonInt ((target_frame_time - elapsed) * 1000))

/-! ### Generic helper lemmas -/

theorem dims_append {a b : Frame} {ha hb w : Nat}
    (da : Dims a ha w) (db : Dims b hb w) : Dims (a ++ b) (ha + hb) w := by
  refine ⟨by rw [List.length_append, da.1, db.1], fun r hr => ?_⟩
  rcases List.mem_append.mp hr with h | h
  · exact da.2 r h
  · exact db.2 r h

theorem getD_append_left {α : Type} (l l' : List α) (d : α) :
    ∀ n, n < l.length → (l ++ l').getD n d = l.getD n d := by
  induction l with
  | nil => intro n hn; simp at hn
  | cons x xs ih =>
    intro n hn
    cases n with
    | zero => simp
    | succ m =>
      simp only [List.cons_append, List.getD_cons_succ]
      exact ih m (by simpa using hn)

theorem getD_concat_length {α : Type} (l : List α) (x : α) (d : α) :
    (l ++ [x]).getD l.length d = x := by
  induction l with
  | nil => simp
  | cons y ys ih => simp [ih]

/-! ### C1 -/

/-- C1 counterexample: a list of five frames, all of the same 1×1
dimensions, satisfies the claim's premise with N = 5 ≥ 2, yet
`combine_frames` produces no composite at all (`np.vstack` raises a
shape-mismatch error because the second row, three frames wide, is wider
than the two-frame first row), so the composite's width is not
2×frameWidth there. -/
theorem combine_frames_no_output_at_five :
    (List.replicate 5 ([[0]] : Frame)).length = 5 ∧
    combine_frames (List.replicate 5 ([[0]] : Frame)) = none := by
  constructor
  · rfl
  · decide

/-- C1 (amended): for equal per-frame dimensions H×W (H, W > 0), N = 1 is
a passthrough; for 2 ≤ N ≤ 4 the composite exists with width 2×W and
height H for N = 2 and 2×H for N ∈ {3, 4}; for N ≥ 5 no composite is
produced (the second-row stack is wider than the first row and the
vertical stack raises). -/
theorem combine_frames_output_dims (frames : List Frame) (H W : Nat)
    (hH : 0 < H) (hW : 0 < W) (hdims : ∀ f ∈ frames, Dims f H W) :
    (frames.length = 1 → combine_frames frames = some (frames.headD [])) ∧
    (2 ≤ frames.length → frames.length ≤ 4 →
      ∃ g, combine_frames frames = some g ∧
        Dims g (if frames.length ≤ 2 then H else 2 * H) (2 * W)) ∧
    (5 ≤ frames.length → combine_frames frames = none) := by
  rcases frames with _ | ⟨a, _ | ⟨b, _ | ⟨c, _ | ⟨d, _ | ⟨e, rest⟩⟩⟩⟩⟩
  · exact ⟨by simp, by simp, by simp⟩
  · exact ⟨fun _ => combine_frames_one a, by simp, by simp⟩
  · have ha := hdims a (by simp)
    have hb := hdims b (by simp)
    refine ⟨by simp, fun _ _ => ?_, by simp⟩
    refine ⟨List.zipWith (· ++ ·) a b, combine_frames_two (ha.1.trans hb.1.symm), ?_⟩
    have := dims_zipWith_append ha hb
    simpa [two_mul] using this
  · have ha := hdims a (by simp)
    have hb := hdims b (by simp)
    have hc := hdims c (by simp)
    refine ⟨by simp, fun _ _ => ?_, by simp⟩
    refine ⟨_, combine_frames_three hH ha hb hc (by omega), ?_⟩
    rw [if_neg (by norm_num)]
    have h1 : Dims (List.zipWith (· ++ ·) a b) H (2 * W) := by
      simpa [two_mul] using dims_zipWith_append ha hb
    have hpd := dims_map_padRow hc ((W + W - W) / 2) ((W + W - W) - (W + W - W) / 2)
    have he : (W + W - W) / 2 + W + ((W + W - W) - (W + W - W) / 2) = 2 * W := by omega
    rw [he] at hpd
    simpa [two_mul] using dims_append h1 hpd
  · have ha := hdims a (by simp)
    have hb := hdims b (by simp)
    have hc := hdims c (by simp)
    have hd := hdims d (by simp)
    refine ⟨by simp, fun _ _ => ?_, by simp⟩
    refine ⟨_, combine_frames_four_exact hH ha hb hc hd rfl, ?_⟩
    rw [if_neg (by norm_num)]
    have h1 := dims_zipWith_append ha hb
    have h2 := dims_zipWith_append hc hd
    simpa [two_mul] using dims_append h1 h2
  · refine ⟨by simp, by intro h2 h4; simp at h4, fun _ => ?_⟩
    exact combine_frames_ge_five a b c d e rest hH hW hdims

/-- Witness for `combine_frames_output_dims` at two 1×1 frames. -/
theorem combine_frames_output_dims_witness :
    ∃ g, combine_frames [[[7]], [[9]]] = some g ∧ Dims g 1 2 := by
  have h := (combine_frames_output_dims [[[7]], [[9]]] 1 1 (by norm_num) (by norm_num)
    (by decide)).2.1 (by norm_num) (by norm_num)
  simpa using h

/-! ### C3 -/

/-- C3: deterministic concrete layouts for 400×280 frames — N=1
passthrough, N=2 the 800×280 horizontal concatenation, N=3 the 800×560
composite whose second row is the third frame between 200 zero columns on
each side, N=4 the 800×560 two-full-rows composite — together with the
general padding rule: a single second-row frame narrower than the first
row is centred with the shortfall split left/right (left gets the floor
half), and a multi-frame second row narrower than the first row gets the
whole shortfall appended on the right. -/
theorem combine_frames_concrete_layouts (a b c d : Frame)
    (ha : Dims a 280 400) (hb : Dims b 280 400) (hc : Dims c 280 400)
    (hd : Dims d 280 400) :
    (combine_frames [a] = some a) ∧
    (combine_frames [a, b] = some (List.zipWith (· ++ ·) a b) ∧
      Dims (List.zipWith (· ++ ·) a b) 280 800) ∧
    (combine_frames [a, b, c] =
        some (List.zipWith (· ++ ·) a b ++ c.map (padRow 200 200)) ∧
      Dims (List.zipWith (· ++ ·) a b ++ c.map (padRow 200 200)) 560 800) ∧
    (combine_frames [a, b, c, d] =
        some (List.zipWith (· ++ ·) a b ++ List.zipWith (· ++ ·) c d) ∧
      Dims (List.zipWith (· ++ ·) a b ++ List.zipWith (· ++ ·) c d) 560 800) ∧
    (∀ (x y z : Frame) (H Wx Wy Wz : Nat), 0 < H → Dims x H Wx → Dims y H Wy →
      Dims z H Wz → Wz < Wx + Wy →
      combine_frames [x, y, z] =
        some (List.zipWith (· ++ ·) x y ++
          z.map (padRow ((Wx + Wy - Wz) / 2) ((Wx + Wy - Wz) - (Wx + Wy - Wz) / 2)))) ∧
    (∀ (x y z w : Frame) (H Wx Wy Wz Ww : Nat), 0 < H → Dims x H Wx →
      Dims y H Wy → Dims z H Wz → Dims w H Ww → Wz + Ww < Wx + Wy →
      combine_frames [x, y, z, w] =
        some (List.zipWith (· ++ ·) x y ++
          (List.zipWith (· ++ ·) z w).map
            (fun row => row ++ List.replicate ((Wx + Wy) - (Wz + Ww)) (0 : Pixel)))) := by
  have h280 : (0 : Nat) < 280 := by norm_num
  refine ⟨combine_frames_one a, ⟨combine_frames_two (ha.1.trans hb.1.symm), ?_⟩,
    ⟨?_, ?_⟩, ⟨combine_frames_four_exact h280 ha hb hc hd rfl, ?_⟩,
    fun x y z H Wx Wy Wz hH hx hy hz hlt => combine_frames_three hH hx hy hz hlt,
    fun x y z w H Wx Wy Wz Ww hH hx hy hz hw hlt =>
      combine_frames_four_pad hH hx hy hz hw hlt⟩
  · simpa using dims_zipWith_append ha hb
  · have h := combine_frames_three h280 ha hb hc (by norm_num)
    norm_num at h
    exact h
  · have h1 : Dims (List.zipWith (· ++ ·) a b) 280 800 := by
      simpa using dims_zipWith_append ha hb
    have h2 : Dims (c.map (padRow 200 200)) 280 800 := by
      simpa using dims_map_padRow hc 200 200
    simpa using dims_append h1 h2
  · have h1 : Dims (List.zipWith (· ++ ·) a b) 280 800 := by
      simpa using dims_zipWith_append ha hb
    have h2 : Dims (List.zipWith (· ++ ·) c d) 280 800 := by
      simpa using dims_zipWith_append hc hd
    simpa using dims_append h1 h2

/-- Witness for `combine_frames_concrete_layouts` at 280×400 zero
frames. -/
theorem combine_frames_concrete_layouts_witness :
    combine_frames [zeroFrame 280 400] = some (zeroFrame 280 400) :=
  (combine_frames_concrete_layouts (zeroFrame 280 400) (zeroFrame 280 400)
    (zeroFrame 280 400) (zeroFrame 280 400) (dims_zeroFrame 280 400)
    (dims_zeroFrame 280 400) (dims_zeroFrame 280 400) (dims_zeroFrame 280 400)).1

/-! ### C2 -/

/-- C2 counterexample: the repository's `connect_camera` helper
(src/utils/connect_camera.py:4-25, duplicated in src/main.py:38-59), used
by the `process_camera` worker, sleeps `min(1 * 2 ** (attempt - 1), 30)`
seconds between connection attempts: 1s before retrying attempt 2, 2s
before attempt 3, 4s before attempt 4 — an exponential (capped) schedule,
not a constant independent of the attempt number. -/
theorem connect_camera_delay_attempt_dependent :
    connectCameraDelay 1 = 1 ∧ connectCameraDelay 2 = 2 ∧
    connectCameraDelay 3 = 4 ∧ connectCameraDelay 6 = 30 ∧
    connectCameraDelay 7 = 30 ∧
    connectCameraDelay 1 ≠ connectCameraDelay 2 := by decide

/-- C2 (amended): the `CameraThread._capture_loop` worker does sleep fixed
attempt-independent delays — every between-attempts sleep is exactly
`reconnect_delay` (1s) and every after-budget sleep is exactly
`extended_retry_delay` (5s) — but the `connect_camera` path used by
`process_camera` sleeps the capped exponential delay
`min(2^(attempt-1), 30)` seconds, which depends on the attempt number. -/
theorem reconnect_delays_spec :
    (∀ (s : CamState) (capAlive openOk readOk : Bool) (ms : Nat),
      CamEvent.retrySleep ms ∈ (captureLoopStep s capAlive openOk readOk).2 →
      ms = reconnect_delay_ms) ∧
    (∀ (s : CamState) (capAlive openOk readOk : Bool) (ms : Nat),
      CamEvent.backoffSleep ms ∈ (captureLoopStep s capAlive openOk readOk).2 →
      ms = extended_retry_delay_ms) ∧
    (∀ n : Nat, connectCameraDelay (n + 1) = min (2 ^ n) 30) := by
  refine ⟨?_, ?_, fun n => by simp [connectCameraDelay]⟩ <;>
  · intro s capAlive openOk readOk ms h
    unfold captureLoopStep at h
    repeat' split at h
    all_goals simp_all

/-- Witness for `reconnect_delays_spec`: the single failed-reconnect sleep
of a concrete step lasts 1000 ms, and the backoff sleep of an exhausted
state lasts 5000 ms. -/
theorem reconnect_delays_spec_witness :
    (1000 : Nat) = reconnect_delay_ms ∧ (5000 : Nat) = extended_retry_delay_ms ∧
    connectCameraDelay 4 = min (2 ^ 3) 30 :=
  ⟨reconnect_delays_spec.1 ⟨false, 0⟩ true false true 1000 (by decide),
   reconnect_delays_spec.2.1 ⟨false, 5⟩ true true true 5000 (by decide),
   reconnect_delays_spec.2.2 3⟩

/-! ### C5 -/

/-- C5: in the capture loop, (a) a failed reconnection attempt increments
`reconnect_attempts` by exactly one, (b) any iteration that publishes a
successfully read frame leaves `reconnect_attempts = 0`, (c) from any
reachable state with `reconnect_attempts = max_reconnect_attempts` the
next iteration is exactly the backoff branch (the extended retry sleep),
and (d) any iteration that takes the backoff branch resets
`reconnect_attempts` to 0. -/
theorem capture_loop_reconnect_monotonicity :
    (∀ (a : Nat) (capAlive readOk : Bool), a < max_reconnect_attempts →
      (captureLoopStep ⟨false, a⟩ capAlive false readOk).1.attempts = a + 1 ∧
      (captureLoopStep ⟨false, a⟩ capAlive false readOk).2 =
        [CamEvent.retrySleep reconnect_delay_ms]) ∧
    (∀ (s : CamState) (capAlive openOk readOk : Bool),
      CamEvent.published ∈ (captureLoopStep s capAlive openOk readOk).2 →
      (captureLoopStep s capAlive openOk readOk).1.attempts = 0) ∧
    (∀ (s : CamState) (capAlive openOk readOk : Bool), Reach s →
      s.attempts = max_reconnect_attempts →
      (captureLoopStep s capAlive openOk readOk).2 =
        [CamEvent.backoffSleep extended_retry_delay_ms]) ∧
    (∀ (s : CamState) (capAlive openOk readOk : Bool),
      (captureLoopStep s capAlive openOk readOk).2 =
        [CamEvent.backoffSleep extended_retry_delay_ms] →
      (captureLoopStep s capAlive openOk readOk).1.attempts = 0) := by
  refine ⟨?_, ?_, ?_, ?_⟩
  · intro a capAlive readOk h
    unfold captureLoopStep
    simp [h]
  · intro s capAlive openOk readOk
    unfold captureLoopStep
    repeat' split
    all_goals intro h
    all_goals simp_all
  · intro s capAlive openOk readOk hreach hmax
    have hinv := reach_invariant hreach
    have hconn : s.connected = false := by
      rcases hb : s.connected with _ | _
      · rfl
      · have := hinv.2 hb
        rw [hmax] at this
        simp [max_reconnect_attempts] at this
    unfold captureLoopStep
    rw [hconn, hmax]
    simp
  · intro s capAlive openOk readOk
    unfold captureLoopStep
    repeat' split
    all_goals intro h
    all_goals simp_all

/-- Witness for `capture_loop_reconnect_monotonicity` at concrete
states: a failed attempt from (disconnected, 2 attempts), a publishing
read, the backoff step from the reachable exhausted state (reached by five
consecutive open failures from the initial connected state), and the
backoff reset. -/
theorem capture_loop_reconnect_monotonicity_witness :
    ((captureLoopStep ⟨false, 2⟩ true false true).1.attempts = 3 ∧
      (captureLoopStep ⟨false, 2⟩ true false true).2 =
        [CamEvent.retrySleep reconnect_delay_ms]) ∧
    (captureLoopStep ⟨true, 0⟩ true true true).1.attempts = 0 ∧
    (captureLoopStep ⟨false, 5⟩ false false false).2 =
      [CamEvent.backoffSleep extended_retry_delay_ms] ∧
    (captureLoopStep ⟨false, 5⟩ false false false).1.attempts = 0 := by
  have h1 : Reach ⟨false, 1⟩ := Reach.step ⟨true, 0⟩ false false false Reach.init
  have h2 : Reach ⟨false, 2⟩ := Reach.step ⟨false, 1⟩ false false false h1
  have h3 : Reach ⟨false, 3⟩ := Reach.step ⟨false, 2⟩ false false false h2
  have h4 : Reach ⟨false, 4⟩ := Reach.step ⟨false, 3⟩ false false false h3
  have h5 : Reach ⟨false, 5⟩ := Reach.step ⟨false, 4⟩ false false false h4
  refine ⟨capture_loop_reconnect_monotonicity.1 2 true true (by decide),
    capture_loop_reconnect_monotonicity.2.1 ⟨true, 0⟩ true true true (by decide),
    capture_loop_reconnect_monotonicity.2.2.1 ⟨false, 5⟩ false false false h5 rfl,
    capture_loop_reconnect_monotonicity.2.2.2 ⟨false, 5⟩ false false false ?_⟩
  exact capture_loop_reconnect_monotonicity.2.2.1 ⟨false, 5⟩ false false false h5 rfl

/-! ### C4 -/

/-- After any list of publishes, the heap has only grown by appending. -/
theorem publishAll_heap_append (qs : List (Buffer × Nat)) :
    ∀ (s : Slot), ∃ tail, (publishAll s qs).heap = s.heap ++ tail := by
  induction qs with
  | nil => intro s; exact ⟨[], by simp [publishAll]⟩
  | cons q qs ih =>
    intro s
    obtain ⟨tail, htail⟩ := ih (publish s q.1 q.2)
    refine ⟨[q.1] ++ tail, ?_⟩
    show (publishAll (publish s q.1 q.2) qs).heap = _
    rw [htail]
    simp [publish]

/-- C4: after the sequential publishes `ps ++ [p]` into one slot (the last
of N ≥ 1 publishes being `p`), `get_latest_frame` returns exactly `p`'s
pixel buffer and `p`'s timestamp, and the address it hands the reader is a
fresh copy whose contents are unchanged by any sequence of publishes
performed after the read. -/
theorem get_latest_frame_latest_wins (s0 : Slot) (ps : List (Buffer × Nat))
    (p : Buffer × Nat) :
    (get_latest_frame (publishAll s0 (ps ++ [p]))).2.2 = p.2 ∧
    ∃ r, (get_latest_frame (publishAll s0 (ps ++ [p]))).2.1 = some r ∧
      heapVal (get_latest_frame (publishAll s0 (ps ++ [p]))).1 r = p.1 ∧
      ∀ qs : List (Buffer × Nat),
        heapVal (publishAll (get_latest_frame (publishAll s0 (ps ++ [p]))).1 qs) r
          = p.1 := by
  have hsplit : publishAll s0 (ps ++ [p]) = publish (publishAll s0 ps) p.1 p.2 := by
    unfold publishAll
    rw [List.foldl_append]
    rfl
  rw [hsplit]
  set s1 := publishAll s0 ps with hs1
  have hread : get_latest_frame (publish s1 p.1 p.2) =
      ({ heap := (s1.heap ++ [p.1]) ++ [(s1.heap ++ [p.1]).getD s1.heap.length []],
         addr := some s1.heap.length, ts := p.2 },
       some (s1.heap ++ [p.1]).length, p.2) := by
    rfl
  have hcopy : (s1.heap ++ [p.1]).getD s1.heap.length [] = p.1 :=
    getD_concat_length s1.heap p.1 []
  rw [hread, hcopy]
  refine ⟨rfl, (s1.heap ++ [p.1]).length, rfl, ?_, ?_⟩
  · show ((s1.heap ++ [p.1]) ++ [p.1]).getD (s1.heap ++ [p.1]).length [] = p.1
    exact getD_concat_length (s1.heap ++ [p.1]) p.1 []
  · intro qs
    obtain ⟨tail, htail⟩ := publishAll_heap_append qs
      ⟨(s1.heap ++ [p.1]) ++ [p.1], some s1.heap.length, p.2⟩
    show (publishAll _ qs).heap.getD (s1.heap ++ [p.1]).length [] = p.1
    rw [htail]
    rw [getD_append_left _ tail [] _ (by simp)]
    exact getD_concat_length (s1.heap ++ [p.1]) p.1 []

/-! ### C6 -/

/-- Every alert `_play_alert_sound` dispatches after resuming from
`last` over a non-decreasing detection sequence bounded below by `last`
comes at least one cooldown window after `last`. -/
theorem play_alert_run_lower (W : Nat) :
    ∀ (ts : List Nat) (last : Nat), ts.Pairwise (· ≤ ·) →
      (∀ t ∈ ts, last ≤ t) → ∀ b ∈ play_alert_run W last ts, last + W ≤ b := by
  intro ts
  induction ts with
  | nil => intro last _ _ b hb; simp [play_alert_run] at hb
  | cons t rest ih =>
    intro last hp hb b hmem
    have hlt : last ≤ t := hb t (by simp)
    have hrest := List.pairwise_cons.mp hp
    unfold play_alert_run at hmem
    split at hmem
    · exact ih last hrest.2 (fun x hx => le_trans hlt (hrest.1 x hx)) b hmem
    · rcases List.mem_cons.mp hmem with rfl | hmem2
      · omega
      · have := ih t hrest.2 hrest.1 b hmem2
        omega

/-- Dispatch times of `_play_alert_sound` over a non-decreasing detection
sequence are pairwise at least one cooldown window apart. -/
theorem play_alert_run_separated (W : Nat) :
    ∀ (ts : List Nat) (last : Nat), ts.Pairwise (· ≤ ·) →
      (∀ t ∈ ts, last ≤ t) →
      (play_alert_run W last ts).Pairwise (fun x y => x + W ≤ y) := by
  intro ts
  induction ts with
  | nil => intro last _ _; simp [play_alert_run]
  | cons t rest ih =>
    intro last hp hb
    have hlt : last ≤ t := hb t (by simp)
    have hrest := List.pairwise_cons.mp hp
    unfold play_alert_run
    split
    · exact ih last hrest.2 (fun x hx => le_trans hlt (hrest.1 x hx))
    · exact List.pairwise_cons.mpr
        ⟨play_alert_run_lower W rest t hrest.2 hrest.1, ih t hrest.2 hrest.1⟩

/-- Same lower bound for the `process_camera` rate limiter, with its
strict guard. -/
theorem process_camera_alert_run_lower :
    ∀ (ts : List Nat) (last : Nat), ts.Pairwise (· ≤ ·) →
      (∀ t ∈ ts, last ≤ t) →
      ∀ b ∈ process_camera_alert_run last ts, last + 5 < b := by
  intro ts
  induction ts with
  | nil => intro last _ _ b hb; simp [process_camera_alert_run] at hb
  | cons t rest ih =>
    intro last hp hb b hmem
    have hlt : last ≤ t := hb t (by simp)
    have hrest := List.pairwise_cons.mp hp
    unfold process_camera_alert_run at hmem
    split at hmem
    · rcases List.mem_cons.mp hmem with rfl | hmem2
      · omega
      · have := ih t hrest.2 hrest.1 b hmem2
        omega
    · exact ih last hrest.2 (fun x hx => le_trans hlt (hrest.1 x hx)) b hmem

/-- Dispatch times of `process_camera` are pairwise strictly more than
its 5-second window apart. -/
theorem process_camera_alert_run_separated :
    ∀ (ts : List Nat) (last : Nat), ts.Pairwise (· ≤ ·) →
      (∀ t ∈ ts, last ≤ t) →
      (process_camera_alert_run last ts).Pairwise (fun x y => x + 5 < y) := by
  intro ts
  induction ts with
  | nil => intro last _ _; simp [process_camera_alert_run]
  | cons t rest ih =>
    intro last hp hb
    have hlt : last ≤ t := hb t (by simp)
    have hrest := List.pairwise_cons.mp hp
    unfold process_camera_alert_run
    split
    · exact List.pairwise_cons.mpr
        ⟨process_camera_alert_run_lower rest t hrest.2 hrest.1, ih t hrest.2 hrest.1⟩
    · exact ih last hrest.2 (fun x hx => le_trans hlt (hrest.1 x hx))

/-- C6 counterexample: in `process_camera` (src/main.py:95-99),
with its 5-second window, two detections at times 6 and 11 — separated by
exactly the window (11 − 6 = 5 ≥ 5) — dispatch only one alert, because the
guard `now - last_sent > 5` is strict; the claim predicts two dispatched
alerts for any separation of at least the window. -/
theorem process_camera_equal_window_one_alert :
    process_camera_alert_run 0 [6, 11] = [6] ∧ 5 ≤ 11 - 6 := by decide

/-- C6 (amended): for the display manager's dispatcher
(`_play_alert_sound`) two detections closer than the cooldown W produce
exactly one dispatched alert and two detections at least W apart produce
two; for `process_camera`'s rate limiter the suppression guard is strict
(`now - last_sent > 5`), so two detections separated by exactly its
5-second window produce one alert and only a separation strictly greater
than the window produces two; in both, dispatched alerts for a source are
never within the window of each other (consecutive dispatch times differ
by at least W, resp. strictly more than 5). -/
theorem alert_cooldown_spec :
    (∀ W t1 t2 : Nat, 0 < W → W ≤ t1 → t1 ≤ t2 →
      play_alert_run W 0 [t1, t2] = if t2 - t1 < W then [t1] else [t1, t2]) ∧
    (∀ t1 t2 : Nat, 5 < t1 → t1 ≤ t2 →
      process_camera_alert_run 0 [t1, t2] =
        if t2 - t1 ≤ 5 then [t1] else [t1, t2]) ∧
    (∀ (W : Nat) (ts : List Nat) (last : Nat), ts.Pairwise (· ≤ ·) →
      (∀ t ∈ ts, last ≤ t) →
      (play_alert_run W last ts).Pairwise (fun x y => x + W ≤ y)) ∧
    (∀ (ts : List Nat) (last : Nat), ts.Pairwise (· ≤ ·) →
      (∀ t ∈ ts, last ≤ t) →
      (process_camera_alert_run last ts).Pairwise (fun x y => x + 5 < y)) := by
  refine ⟨?_, ?_, fun W ts last => play_alert_run_separated W ts last,
    fun ts last => process_camera_alert_run_separated ts last⟩
  · intro W t1 t2 hW h1 h12
    have h0 : ¬ (t1 - 0 < W) := by omega
    by_cases h : t2 - t1 < W <;> simp [play_alert_run, h0, h] <;>
      exact fun hx => absurd hx (by omega)
  · intro t1 t2 h1 h12
    have h0 : t1 - 0 > 5 := by omega
    by_cases h : t2 - t1 ≤ 5
    · have hns : ¬ (t2 - t1 > 5) := by omega
      simp [process_camera_alert_run, h0, hns, h]
      exact fun hx => absurd hx (by omega)
    · have hs : t2 - t1 > 5 := by omega
      simp [process_camera_alert_run, h0, hs, h]
      exact fun hx => absurd hx (by omega)

/-- Witness for `alert_cooldown_spec` at concrete detection times. -/
theorem alert_cooldown_spec_witness :
    play_alert_run 10 0 [10, 15] = [10] ∧
    process_camera_alert_run 0 [6, 20] = [6, 20] ∧
    (play_alert_run 3 0 [5, 6, 9]).Pairwise (fun x y => x + 3 ≤ y) ∧
    (process_camera_alert_run 0 [6, 9, 30]).Pairwise (fun x y => x + 5 < y) := by
  refine ⟨?_, ?_, alert_cooldown_spec.2.2.1 3 [5, 6, 9] 0 (by decide) (by decide),
    alert_cooldown_spec.2.2.2 [6, 9, 30] 0 (by decide) (by decide)⟩
  · have h := alert_cooldown_spec.1 10 10 15 (by norm_num) (by norm_num) (by norm_num)
    simpa using h
  · have h := alert_cooldown_spec.2.1 6 20 (by norm_num) (by norm_num)
    simpa using h

/-! ### C7 -/

/-- C7: `collect_frames` returns exactly one frame and one timestamp per
camera thread, in input (configuration) order; a camera whose slot holds
no sample contributes, at its own position, the placeholder — a buffer of
exactly the configured frame_height×frame_width dimensions — with
timestamp 0, and a camera with a sample contributes that very frame and
its timestamp. -/
theorem collect_frames_spec (H W : Nat) (cams : List CamView) :
    (collect_frames H W cams).1.length = cams.length ∧
    (collect_frames H W cams).2.length = cams.length ∧
    (∀ i : Nat, i < cams.length →
      ((cams.getD i ⟨0, none, 0⟩).latest = none →
        (collect_frames H W cams).1.getD i [] =
          create_placeholder_frame H W (cams.getD i ⟨0, none, 0⟩).camera_id ∧
        Dims ((collect_frames H W cams).1.getD i []) H W ∧
        (collect_frames H W cams).2.getD i 1 = 0) ∧
      (∀ f, (cams.getD i ⟨0, none, 0⟩).latest = some f →
        (collect_frames H W cams).1.getD i [] = f ∧
        (collect_frames H W cams).2.getD i 1 =
          (cams.getD i ⟨0, none, 0⟩).latest_ts)) := by
  induction cams with
  | nil => exact ⟨rfl, rfl, fun i hi => by simp at hi⟩
  | cons cam rest ih =>
    obtain ⟨ihl, ihts, ihp⟩ := ih
    rcases hcl : cam.latest with _ | f
    · refine ⟨by simp [collect_frames, hcl, ihl], by simp [collect_frames, hcl, ihts], ?_⟩
      intro i hi
      cases i with
      | zero =>
        refine ⟨fun _ => ⟨by simp [collect_frames, hcl], ?_, by simp [collect_frames, hcl]⟩,
          fun f hf => by simp [hcl] at hf⟩
        simp only [collect_frames, hcl, List.getD_cons_zero]
        exact dims_zeroFrame H W
      | succ j =>
        have hj : j < rest.length := by simpa using hi
        refine ⟨fun hn => ?_, fun f hf => ?_⟩
        · have := (ihp j hj).1 (by simpa using hn)
          simpa [collect_frames, hcl] using this
        · have := (ihp j hj).2 f (by simpa using hf)
          simpa [collect_frames, hcl] using this
    · refine ⟨by simp [collect_frames, hcl, ihl], by simp [collect_frames, hcl, ihts], ?_⟩
      intro i hi
      cases i with
      | zero =>
        refine ⟨fun hn => by simp [hcl] at hn, fun g hg => ?_⟩
        have : f = g := by simpa [hcl] using hg
        subst this
        simp [collect_frames, hcl]
      | succ j =>
        have hj : j < rest.length := by simpa using hi
        refine ⟨fun hn => ?_, fun g hg => ?_⟩
        · have := (ihp j hj).1 (by simpa using hn)
          simpa [collect_frames, hcl] using this
        · have := (ihp j hj).2 g (by simpa using hg)
          simpa [collect_frames, hcl] using this

/-- Witness for `collect_frames_spec`: one never-published camera followed
by one with a sample. -/
theorem collect_frames_spec_witness :
    (collect_frames 2 3 [⟨7, none, 0⟩, ⟨1, some [[4, 4, 4], [4, 4, 4]], 9⟩]).1.getD 0 [] =
      create_placeholder_frame 2 3 7 ∧
    (collect_frames 2 3 [⟨7, none, 0⟩, ⟨1, some [[4, 4, 4], [4, 4, 4]], 9⟩]).2.getD 0 1 = 0 ∧
    (collect_frames 2 3 [⟨7, none, 0⟩, ⟨1, some [[4, 4, 4], [4, 4, 4]], 9⟩]).1.getD 1 [] =
      [[4, 4, 4], [4, 4, 4]] ∧
    (collect_frames 2 3 [⟨7, none, 0⟩, ⟨1, some [[4, 4, 4], [4, 4, 4]], 9⟩]).2.getD 1 1 = 9 := by
  have h := (collect_frames_spec 2 3 [⟨7, none, 0⟩, ⟨1, some [[4, 4, 4], [4, 4, 4]], 9⟩]).2.2
  have h0 := (h 0 (by norm_num)).1 rfl
  have h1 := (h 1 (by norm_num)).2 [[4, 4, 4], [4, 4, 4]] rfl
  exact ⟨h0.1, h0.2.2, h1.1, h1.2⟩

/-! ### C8 -/

/-- The enumerate-loop body preserves length and passes frames whose
detection call raises through unchanged. -/
theorem apply_ai_detection_go_spec (S : AiSettings)
    (detect : Frame → Except Unit (List Det))
    (draw : Frame → List Det → Nat → Frame) (camera_ids : List Nat) :
    ∀ (frames : List Frame) (i : Nat),
      (apply_ai_detection_go S detect draw camera_ids i frames).length =
        frames.length ∧
      (∀ j : Nat, j < frames.length → detect (frames.getD j []) = .error () →
        (apply_ai_detection_go S detect draw camera_ids i frames).getD j [] =
          frames.getD j []) := by
  intro frames
  induction frames with
  | nil => exact fun i => ⟨rfl, fun j hj _ => by simp at hj⟩
  | cons frame rest ih =>
    intro i
    refine ⟨by simpa [apply_ai_detection_go] using (ih (i + 1)).1, ?_⟩
    intro j hj herr
    cases j with
    | zero =>
      simp only [List.getD_cons_zero] at herr
      simp only [apply_ai_detection_go, List.getD_cons_zero]
      split
      · split
        · rfl
        · rw [herr]
      · rfl
    | succ k =>
      have hk : k < rest.length := by simpa using hj
      simp only [List.getD_cons_succ] at herr ⊢
      exact (ih (i + 1)).2 k hk herr

/-- C8: `apply_ai_detection` returns exactly one output frame per input
frame for every input list, and whenever the detection capability raises
an exception on some frame, that frame appears unannotated in the output
at its own position — a detection failure never drops a frame or aborts
the cycle. -/
theorem apply_ai_detection_total (S : AiSettings) (detector_loaded : Bool)
    (detect : Frame → Except Unit (List Det))
    (draw : Frame → List Det → Nat → Frame) (camera_ids : List Nat)
    (frames : List Frame) :
    (apply_ai_detection S detector_loaded detect draw camera_ids frames).length =
      frames.length ∧
    (∀ j : Nat, j < frames.length → detect (frames.getD j []) = .error () →
      (apply_ai_detection S detector_loaded detect draw camera_ids frames).getD j [] =
        frames.getD j []) := by
  unfold apply_ai_detection
  split
  · exact ⟨rfl, fun j _ _ => rfl⟩
  · exact apply_ai_detection_go_spec S detect draw camera_ids frames 0

/-- Witness for `apply_ai_detection_total`: with the committed settings
and a capability that raises on every frame, a one-frame input yields the
same single frame. -/
theorem apply_ai_detection_total_witness :
    (apply_ai_detection aiDetectionSettings true (fun _ => .error ())
      (fun f _ _ => f) [0] [[[1, 2]]]).length = 1 ∧
    (apply_ai_detection aiDetectionSettings true (fun _ => .error ())
      (fun f _ _ => f) [0] [[[1, 2]]]).getD 0 [] = [[1, 2]] := by
  have h := apply_ai_detection_total aiDetectionSettings true (fun _ => .error ())
    (fun f _ _ => f) [0] [[[1, 2]]]
  exact ⟨h.1, h.2 0 (by norm_num) rfl⟩

/-! ### C9 -/

theorem pythonInt_nonpos {q : Rat} (hq : q ≤ 0) : pythonInt q ≤ 0 := by
  unfold pythonInt
  split
  · exact Int.ceil_le.mpr (by exact_mod_cast hq)
  · calc ⌊q⌋ ≤ ⌊(0 : Rat)⌋ := Int.floor_le_floor hq
      _ = 0 := by norm_num

/-- C9: for every elapsed cycle time the Governor's delay is exactly the
maximum of the minimum delay floor (1 ms) and the remaining share of the
target frame interval (in integer milliseconds, truncated toward zero as
Python's `int()` does), so it is never below the floor; in particular when
the cycle already took at least the target interval the delay is exactly
the floor. -/
theorem calculate_delay_spec (elapsed : Rat) :
    calculate_delay elapsed =
      max min_delay (pythonInt ((target_frame_time - elapsed) * 1000)) ∧
    min_delay ≤ calculate_delay elapsed ∧
    (target_frame_time ≤ elapsed → calculate_delay elapsed = min_delay) := by
  refine ⟨rfl, le_max_left _ _, fun hle => ?_⟩
  have hq : (target_frame_time - elapsed) * 1000 ≤ 0 := by
    have : target_frame_time - elapsed ≤ 0 := by linarith
    nlinarith
  have := pythonInt_nonpos hq
  unfold calculate_delay min_delay at *
  omega

/-- Witness for `calculate_delay_spec` at a 1-second cycle (well beyond
the 40 ms target interval): the delay is the 1 ms floor. -/
theorem calculate_delay_spec_witness : calculate_delay 1 = min_delay :=
  (calculate_delay_spec 1).2.2 (by norm_num [target_frame_time])

/-! ### C10 -/

/-- C10: `draw_detections` allocates a fresh buffer for its annotated
output — the address it returns did not exist before the call and in
particular is not the input frame's address — and every pre-existing
buffer, the input frame included, is bitwise unchanged after the call,
for every input frame, detection list and choice of raster primitives. -/
theorem draw_detections_fresh (rectOp : Frame → Det → Frame)
    (labelOp : Frame → Nat → Det → Frame)
    (summaryOp : Frame → Nat → Nat → Frame)
    (heap : List Frame) (a : Nat) (detections : List Det) (camera_id : Nat) :
    (∀ j : Nat, j < heap.length →
      (draw_detections rectOp labelOp summaryOp heap a detections camera_id).1.getD j [] =
        heap.getD j []) ∧
    (draw_detections rectOp labelOp summaryOp heap a detections camera_id).2 =
      heap.length ∧
    (a < heap.length →
      (draw_detections rectOp labelOp summaryOp heap a detections camera_id).2 ≠ a) := by
  refine ⟨fun j hj => ?_, rfl, fun ha => by simp [draw_detections]; omega⟩
  show (heap ++ [_]).getD j [] = heap.getD j []
  exact getD_append_left heap _ [] j hj

/-- Witness for `draw_detections_fresh` on a one-buffer heap: the caller's
frame at address 0 is unchanged and the returned address 1 is fresh. -/
theorem draw_detections_fresh_witness :
    (draw_detections (fun f _ => f) (fun f _ _ => f) (fun f _ _ => f)
      [[[3, 3]]] 0 [(0, 0, 1, 1, 1)] 2).1.getD 0 [] = [[3, 3]] ∧
    (draw_detections (fun f _ => f) (fun f _ _ => f) (fun f _ _ => f)
      [[[3, 3]]] 0 [(0, 0, 1, 1, 1)] 2).2 ≠ 0 := by
  have h := draw_detections_fresh (fun f _ => f) (fun f _ _ => f) (fun f _ _ => f)
    [[[3, 3]]] 0 [(0, 0, 1, 1, 1)] 2
  exact ⟨h.1 0 (by norm_num), h.2.2 (by norm_num)⟩

end AiCamera
